import Mathlib

/-! Peer filter (`cfg/peer-filter/filter.go`).

A shallow embedding of the `PeerFilter` allowlist and of the two decision
predicates it hands to the relay transport.

* peer identities (`peer.ID`) are a type parameter `P` with decidable equality;
* a Go map `map[peer.ID]struct{}` is either the nil map or a finite set of keys;
* `sync.RWMutex` is explicit state (a writer flag and a reader count);
* every method is a function from the receiver's state to an `Outcome`: it
  returns normally, panics, or waits forever on the mutex.
-/

namespace PeerFilterModel

/-! ## Go runtime pieces -/

/-- Runtime failures the embedded code can raise. -/
inductive RuntimeError where
  /-- Go: `panic: assignment to entry in nil map`. -/
  | nilMapAssign
  /-- Go: `fatal error: sync: Unlock of unlocked RWMutex`. -/
  | unlockOfUnlocked
  /-- Go: `fatal error: sync: RUnlock of unlocked RWMutex`. -/
  | runlockOfUnlocked
  /-- Go: `invalid memory address or nil pointer dereference`. -/
  | nilDereference
  deriving DecidableEq, Repr

/-- The result of running a piece of code from a state of type `σ`. -/
inductive Outcome (σ α : Type) where
  /-- Normal return with the final state and the returned value. -/
  | ret (s : σ) (a : α)
  /-- The code panicked; `s` is the state at the moment of the panic. -/
  | panicked (s : σ) (e : RuntimeError)
  /-- The code waits forever to acquire the mutex; `s` is the state then. -/
  | blocked (s : σ)
  deriving DecidableEq, Repr

/-- The state an outcome leaves behind. -/
def Outcome.state {σ α : Type} : Outcome σ α → σ
  | .ret s _ => s
  | .panicked s _ => s
  | .blocked s => s

/-- The returned value, when the code returned normally. -/
def Outcome.value? {σ α : Type} : Outcome σ α → Option α
  | .ret _ a => some a
  | .panicked _ _ => none
  | .blocked _ => none

/-- Whether the code returned normally. -/
def Outcome.returned {σ α : Type} : Outcome σ α → Bool
  | .ret _ _ => true
  | .panicked _ _ => false
  | .blocked _ => false

/-- A value of Go type `map[K]struct{}`: the nil map, or a map holding a set of keys. -/
inductive GoMap (K : Type) where
  /-- The zero value of a map type. -/
  | nil
  /-- A map made by `make` or a literal, with its key set. -/
  | mk (keys : Finset K)
  deriving DecidableEq

/-- Go `m[k] = struct{}{}`: `none` is the panic on a nil map. -/
def GoMap.assign {K : Type} [DecidableEq K] : GoMap K → K → Option (GoMap K)
  | .nil, _ => none
  | .mk keys, k => some (.mk (insert k keys))

/-- Go `delete(m, k)`: a no-op on a nil map or an absent key. -/
def GoMap.delete {K : Type} [DecidableEq K] : GoMap K → K → GoMap K
  | .nil, _ => .nil
  | .mk keys, k => .mk (keys.erase k)

/-- Go `_, ok := m[k]`: reading a nil map yields `ok = false`. -/
def GoMap.lookup {K : Type} [DecidableEq K] : GoMap K → K → Bool
  | .nil, _ => false
  | .mk keys, k => decide (k ∈ keys)

/-- The set of keys of a map (empty for the nil map). -/
def GoMap.keySet {K : Type} : GoMap K → Finset K
  | .nil => ∅
  | .mk keys => keys

/-- State of a `sync.RWMutex`: whether a writer holds it and how many readers do. -/
structure RWMutex where
  writer : Bool
  readers : Nat
  deriving DecidableEq, Repr

/-- The zero value of `sync.RWMutex`: an unlocked mutex. -/
def RWMutex.zero : RWMutex := { writer := false, readers := 0 }

/-- Go `mx.Lock()`: acquires the write lock; `none` when the caller has to wait. -/
def RWMutex.Lock (m : RWMutex) : Option RWMutex :=
  if m.writer = false ∧ m.readers = 0 then some { m with writer := true } else none

/-- Go `mx.Unlock()`: releases the write lock; `none` is the fatal error on an unlocked mutex. -/
def RWMutex.Unlock (m : RWMutex) : Option RWMutex :=
  if m.writer = true then some { m with writer := false } else none

/-- Go `mx.RLock()`: acquires a read lock; `none` when the caller has to wait for a writer. -/
def RWMutex.RLock (m : RWMutex) : Option RWMutex :=
  if m.writer = false then some { m with readers := m.readers + 1 } else none

/-- Go `mx.RUnlock()`: releases a read lock; `none` is the fatal error when no reader holds it. -/
def RWMutex.RUnlock (m : RWMutex) : Option RWMutex :=
  if 0 < m.readers then some { m with readers := m.readers - 1 } else none

/-! ## Types of the relay transport used by the filter -/

/-- A `network.Conn`, reduced to what the filter reads: the remote peer. -/
structure Conn (P : Type) where
  RemotePeer : P
  deriving DecidableEq, Repr

/-- A `network.Stream`, reduced to what the filter reads: its connection. -/
structure Stream (P : Type) where
  Conn : Conn P
  deriving DecidableEq, Repr

/-- A `peer.AddrInfo`: a peer identity and its addresses. -/
structure AddrInfo (P : Type) where
  ID : P
  Addrs : List String
  deriving DecidableEq, Repr

/-! ## The filter -/

/-- The struct `PeerFilter`: the map of allowed peers and the mutex guarding it. -/
structure PeerFilter (P : Type) where
  allowed : GoMap P
  mx : RWMutex
  deriving DecidableEq

variable {P : Type} [DecidableEq P]

/-- The composite literal `PeerFilter{}`: every field at its zero value. -/
def PeerFilter.zero : PeerFilter P := { allowed := .nil, mx := RWMutex.zero }

/-- The loop body of `New`, run over the remaining identities: `pf.allowed[p] = struct{}{}`. -/
def New.loop : PeerFilter P → List P → Outcome (PeerFilter P) Unit
  | pf, [] => .ret pf ()
  | pf, p :: rest =>
    match pf.allowed.assign p with
    | none => .panicked pf .nilMapAssign
    | some m => New.loop { pf with allowed := m } rest

/-- The constructor `New(ids ...peer.ID)`; the state of a normal return is the filter `*pf`. -/
def New (ids : List P) : Outcome (PeerFilter P) Unit :=
  New.loop PeerFilter.zero ids

/-- The method `Allow`: `Lock`, `pf.allowed[p] = struct{}{}`, `Unlock`. -/
def Allow (pf : PeerFilter P) (p : P) : Outcome (PeerFilter P) Unit :=
  match pf.mx.Lock with
  | none => .blocked pf
  | some mx1 =>
    match pf.allowed.assign p with
    | none => .panicked { pf with mx := mx1 } .nilMapAssign
    | some m =>
      match mx1.Unlock with
      | none => .panicked { allowed := m, mx := mx1 } .unlockOfUnlocked
      | some mx2 => .ret { allowed := m, mx := mx2 } ()

/-- The method `Unallow`: `Lock`, `delete(pf.allowed, p)`, `Unlock`. -/
def Unallow (pf : PeerFilter P) (p : P) : Outcome (PeerFilter P) Unit :=
  match pf.mx.Lock with
  | none => .blocked pf
  | some mx1 =>
    match mx1.Unlock with
    | none => .panicked { allowed := pf.allowed.delete p, mx := mx1 } .unlockOfUnlocked
    | some mx2 => .ret { allowed := pf.allowed.delete p, mx := mx2 } ()

/-- The method `IsAllowed`: `RLock`, `_, is := pf.allowed[p]`, `RUnlock`, `return is`. -/
def IsAllowed (pf : PeerFilter P) (p : P) : Outcome (PeerFilter P) Bool :=
  match pf.mx.RLock with
  | none => .blocked pf
  | some mx1 =>
    match mx1.RUnlock with
    | none => .panicked { pf with mx := mx1 } .runlockOfUnlocked
    | some mx2 => .ret { pf with mx := mx2 } (pf.allowed.lookup p)

/-- The method `handleHopConn`:
`pf.IsAllowed(s.Conn().RemotePeer()) || pf.IsAllowed(dst.ID)`, with Go's short-circuit `||`. -/
def handleHopConn (pf : PeerFilter P) (s : Stream P) (dst : AddrInfo P) :
    Outcome (PeerFilter P) Bool :=
  match IsAllowed pf s.Conn.RemotePeer with
  | .ret pf1 true => .ret pf1 true
  | .ret pf1 false => IsAllowed pf1 dst.ID
  | .panicked pf1 e => .panicked pf1 e
  | .blocked pf1 => .blocked pf1

/-- The method `handleCanHop`: `pf.IsAllowed(s.Conn().RemotePeer())`. -/
def handleCanHop (pf : PeerFilter P) (s : Stream P) : Outcome (PeerFilter P) Bool :=
  IsAllowed pf s.Conn.RemotePeer

/-! ## Sequences of calls -/

/-- A call of one of the five methods of a filter. -/
inductive Call (P : Type) where
  | Allow (p : P)
  | Unallow (p : P)
  | IsAllowed (p : P)
  | handleHopConn (s : Stream P) (dst : AddrInfo P)
  | handleCanHop (s : Stream P)
  deriving DecidableEq

/-- Replaces the returned value of an outcome, keeping state, panic and blocking as they are. -/
def Outcome.mapValue {σ α β : Type} (f : α → β) : Outcome σ α → Outcome σ β
  | .ret s a => .ret s (f a)
  | .panicked s e => .panicked s e
  | .blocked s => .blocked s

/-- Whether a call is one of the two mutations, `Allow` and `Unallow`; the other three calls
are the queries. -/
def Call.isMutation : Call P → Bool
  | .Allow _ => true
  | .Unallow _ => true
  | .IsAllowed _ => false
  | .handleHopConn _ _ => false
  | .handleCanHop _ => false

/-- Runs one call; the value is `some b` for the three queries and `none` for `Allow`/`Unallow`. -/
def Call.run (pf : PeerFilter P) : Call P → Outcome (PeerFilter P) (Option Bool)
  | .Allow p => (PeerFilterModel.Allow pf p).mapValue (fun _ => none)
  | .Unallow p => (PeerFilterModel.Unallow pf p).mapValue (fun _ => none)
  | .IsAllowed p => (PeerFilterModel.IsAllowed pf p).mapValue some
  | .handleHopConn s dst => (PeerFilterModel.handleHopConn pf s dst).mapValue some
  | .handleCanHop s => (PeerFilterModel.handleCanHop pf s).mapValue some

/-- Runs the calls one after the other, as consecutive Go statements: a call that panics or
waits forever ends the run, and the calls after it are not made. -/
def runCalls : PeerFilter P → List (Call P) → Outcome (PeerFilter P) (List (Option Bool))
  | pf, [] => .ret pf []
  | pf, c :: cs =>
    match c.run pf with
    | .ret pf1 v => (runCalls pf1 cs).mapValue (fun vs => v :: vs)
    | .panicked pf1 e => .panicked pf1 e
    | .blocked pf1 => .blocked pf1

/-- The filters a program can hold: returned by `New`, or left by a call of `Allow` or
`Unallow` that returned normally on such a filter. -/
inductive Reachable : PeerFilter P → Prop where
  | new (ids : List P) (pf : PeerFilter P) : New ids = .ret pf () → Reachable pf
  | allow (pf pf1 : PeerFilter P) (a : P) :
      Reachable pf → Allow pf a = .ret pf1 () → Reachable pf1
  | unallow (pf pf1 : PeerFilter P) (a : P) :
      Reachable pf → Unallow pf a = .ret pf1 () → Reachable pf1

/-! ## The acceptor -/

/-- The memory holding the filters of a program; a `*PeerFilter` is an index into it. -/
abbrev Heap (P : Type) := List (PeerFilter P)

/-- Runs a method on the filter a pointer refers to and writes the filter back;
a pointer to nothing is a nil dereference. -/
def onHeap {α : Type} (h : Heap P) (ptr : Nat)
    (f : PeerFilter P → Outcome (PeerFilter P) α) : Outcome (Heap P) α :=
  match h.get? ptr with
  | none => .panicked h .nilDereference
  | some pf =>
    match f pf with
    | .ret pf1 a => .ret (h.set ptr pf1) a
    | .panicked pf1 e => .panicked (h.set ptr pf1) e
    | .blocked pf1 => .blocked (h.set ptr pf1)

/-- Modelled from the spec: the type `relay.Acceptor` of the root package, which is not among
the sources; it is a pair of predicate callbacks `HopConn` and `CanHop`. A callback runs in
the memory of the moment it is invoked. -/
structure Acceptor (P : Type) where
  HopConn : Heap P → Stream P → AddrInfo P → Outcome (Heap P) Bool
  CanHop : Heap P → Stream P → Outcome (Heap P) Bool

/-- The method `GetAcceptor`, called in memory `h` on the pointer `pf`: it returns the method
values `pf.handleHopConn` and `pf.handleCanHop`, which bind the pointer `pf` (not a copy of
the struct), and it reads and writes nothing. -/
def GetAcceptor (h : Heap P) (pf : Nat) : Outcome (Heap P) (Acceptor P) :=
  .ret h
    { HopConn := fun h1 s dst => onHeap h1 pf (fun x => handleHopConn x s dst)
      CanHop := fun h1 s => onHeap h1 pf (fun x => handleCanHop x s) }

end PeerFilterModel

namespace PeerFilterModel

variable {P : Type} [DecidableEq P]

/-! ## Basic facts about the embedding -/

theorem New_nil : New ([] : List P) = .ret PeerFilter.zero () := rfl

theorem New_cons (p : P) (ids : List P) :
    New (p :: ids) = .panicked PeerFilter.zero .nilMapAssign := rfl

theorem New_ret_iff (ids : List P) (pf : PeerFilter P) :
    New ids = .ret pf () ↔ ids = [] ∧ pf = PeerFilter.zero := by
  cases ids with
  | nil => simp [New_nil, eq_comm]
  | cons p rest => simp [New_cons]

theorem Allow_nilMap (pf : PeerFilter P) (p : P) (hm : pf.allowed = .nil)
    (hl : pf.mx = RWMutex.zero) :
    Allow pf p = .panicked { allowed := .nil, mx := { writer := true, readers := 0 } }
      .nilMapAssign := by
  obtain ⟨m, l⟩ := pf
  simp only at hm hl
  subst hm hl
  rfl

theorem Allow_blocked (pf : PeerFilter P) (p : P) (hl : pf.mx ≠ RWMutex.zero) :
    Allow pf p = .blocked pf := by
  obtain ⟨m, ⟨w, r⟩⟩ := pf
  have : ¬ (w = false ∧ r = 0) := by
    rintro ⟨rfl, rfl⟩
    exact hl rfl
  simp [Allow, RWMutex.Lock, this]

theorem Allow_mk (keys : Finset P) (p : P) :
    Allow { allowed := .mk keys, mx := RWMutex.zero } p
      = .ret { allowed := .mk (insert p keys), mx := RWMutex.zero } () := rfl

theorem Unallow_free (pf : PeerFilter P) (p : P) (hl : pf.mx = RWMutex.zero) :
    Unallow pf p = .ret { allowed := pf.allowed.delete p, mx := RWMutex.zero } () := by
  obtain ⟨m, l⟩ := pf
  simp only at hl
  subst hl
  rfl

theorem Unallow_blocked (pf : PeerFilter P) (p : P) (hl : pf.mx ≠ RWMutex.zero) :
    Unallow pf p = .blocked pf := by
  obtain ⟨m, ⟨w, r⟩⟩ := pf
  have : ¬ (w = false ∧ r = 0) := by
    rintro ⟨rfl, rfl⟩
    exact hl rfl
  simp [Unallow, RWMutex.Lock, this]

theorem IsAllowed_no_writer (pf : PeerFilter P) (p : P) (h : pf.mx.writer = false) :
    IsAllowed pf p = .ret pf (pf.allowed.lookup p) := by
  obtain ⟨m, ⟨w, r⟩⟩ := pf
  simp only at h
  subst h
  simp [IsAllowed, RWMutex.RLock, RWMutex.RUnlock]

theorem IsAllowed_writer (pf : PeerFilter P) (p : P) (h : pf.mx.writer = true) :
    IsAllowed pf p = .blocked pf := by
  obtain ⟨m, ⟨w, r⟩⟩ := pf
  simp only at h
  subst h
  simp [IsAllowed, RWMutex.RLock]

theorem handleHopConn_no_writer (pf : PeerFilter P) (s : Stream P) (dst : AddrInfo P)
    (h : pf.mx.writer = false) :
    handleHopConn pf s dst
      = .ret pf (pf.allowed.lookup s.Conn.RemotePeer || pf.allowed.lookup dst.ID) := by
  unfold handleHopConn
  rw [IsAllowed_no_writer pf _ h]
  cases hr : pf.allowed.lookup s.Conn.RemotePeer with
  | true => simp
  | false => simp [IsAllowed_no_writer pf _ h]

theorem handleHopConn_writer (pf : PeerFilter P) (s : Stream P) (dst : AddrInfo P)
    (h : pf.mx.writer = true) : handleHopConn pf s dst = .blocked pf := by
  unfold handleHopConn
  rw [IsAllowed_writer pf _ h]

theorem lookup_eq_true_iff (m : GoMap P) (p : P) : m.lookup p = true ↔ p ∈ m.keySet := by
  cases m <;> simp [GoMap.lookup, GoMap.keySet]

/-- The only filter a program can reach from `New` is the zero filter: `New` returns only
for no identities, `Allow` never returns on a nil map, and `Unallow` leaves it nil. -/
theorem reachable_iff (pf : PeerFilter P) : Reachable pf ↔ pf = PeerFilter.zero := by
  constructor
  · intro h
    induction h with
    | new ids pf h => exact ((New_ret_iff ids pf).1 h).2
    | allow pf pf1 a _ h ih =>
      subst ih
      rw [Allow_nilMap _ a rfl rfl] at h
      cases h
    | unallow pf pf1 a _ h ih =>
      subst ih
      rw [Unallow_free _ a rfl] at h
      cases h
      rfl
  · rintro rfl
    exact Reachable.new [] _ New_nil

theorem Allow_state_lookup_of_ne (pf : PeerFilter P) (a b : P) (hab : a ≠ b) :
    (Allow pf a).state.allowed.lookup b = pf.allowed.lookup b := by
  by_cases hl : pf.mx = RWMutex.zero
  · obtain ⟨m, l⟩ := pf
    simp only at hl
    subst hl
    cases m with
    | nil => rfl
    | mk keys =>
      rw [Allow_mk]
      simp [Outcome.state, GoMap.lookup, Finset.mem_insert, Ne.symm hab]
  · rw [Allow_blocked pf a hl]
    rfl

theorem run_Allow_mk (keys : Finset P) (p : P) :
    Call.run { allowed := .mk keys, mx := RWMutex.zero } (Call.Allow p)
      = .ret { allowed := .mk (insert p keys), mx := RWMutex.zero } none := rfl

theorem run_Allow_nil (p : P) :
    Call.run { allowed := .nil, mx := RWMutex.zero } (Call.Allow p)
      = .panicked { allowed := .nil, mx := { writer := true, readers := 0 } }
          .nilMapAssign := rfl

theorem run_Unallow_free (m : GoMap P) (p : P) :
    Call.run { allowed := m, mx := RWMutex.zero } (Call.Unallow p)
      = .ret { allowed := m.delete p, mx := RWMutex.zero } none := rfl

theorem run_Allow_blocked (pf : PeerFilter P) (p : P) (hl : pf.mx ≠ RWMutex.zero) :
    Call.run pf (Call.Allow p) = .blocked pf := by
  simp [Call.run, Allow_blocked pf p hl, Outcome.mapValue]

theorem run_Unallow_blocked (pf : PeerFilter P) (p : P) (hl : pf.mx ≠ RWMutex.zero) :
    Call.run pf (Call.Unallow p) = .blocked pf := by
  simp [Call.run, Unallow_blocked pf p hl, Outcome.mapValue]

/-! ## Allow, then query -/

/-- C1, evaluated at the failing input `New()` then `Allow("QmA")`: the constructor returns
the zero filter, whose map is nil; `Allow` does not complete on it but panics on the map
write while it holds the write lock, so the `IsAllowed("QmA")` that follows is never made,
and made on the state the panic leaves it waits forever instead of returning true. -/
theorem Allow_on_new_filter_panics :
    New ([] : List String) = .ret PeerFilter.zero () ∧
    Allow (PeerFilter.zero : PeerFilter String) "QmA"
      = .panicked { allowed := .nil, mx := { writer := true, readers := 0 } } .nilMapAssign ∧
    runCalls (PeerFilter.zero : PeerFilter String) [.Allow "QmA", .IsAllowed "QmA"]
      = .panicked { allowed := .nil, mx := { writer := true, readers := 0 } } .nilMapAssign ∧
    IsAllowed ({ allowed := .nil, mx := { writer := true, readers := 0 } } : PeerFilter String)
      "QmA" = .blocked { allowed := .nil, mx := { writer := true, readers := 0 } } := by
  decide

/-! ## The two decision predicates -/

/-- C2, evaluated at the failing input `New()`, `Allow("QmTarget")`, then
`handleHopConn` for the requester `"QmRequester"` and the target `"QmTarget"`: `Allow` panics
on the nil map, so the decision is never taken in that run; taken on the filter as `New`
returned it the decision is false, and taken on the state the panic leaves it never
returns. In no case is it true. -/
theorem handleHopConn_after_Allow_on_new_filter :
    New ([] : List String) = .ret PeerFilter.zero () ∧
    runCalls (PeerFilter.zero : PeerFilter String)
        [.Allow "QmTarget", .handleHopConn ⟨⟨"QmRequester"⟩⟩ ⟨"QmTarget", []⟩]
      = .panicked { allowed := .nil, mx := { writer := true, readers := 0 } } .nilMapAssign ∧
    handleHopConn (PeerFilter.zero : PeerFilter String) ⟨⟨"QmRequester"⟩⟩ ⟨"QmTarget", []⟩
      = .ret PeerFilter.zero false ∧
    handleHopConn ({ allowed := .nil, mx := { writer := true, readers := 0 } } : PeerFilter String)
        ⟨⟨"QmRequester"⟩⟩ ⟨"QmTarget", []⟩
      = .blocked { allowed := .nil, mx := { writer := true, readers := 0 } } := by
  decide

/-- C3: `handleCanHop` is `IsAllowed` of the stream's remote peer, whatever the state. When
no writer holds the mutex it returns normally, leaves the filter as it was, and its value is
true exactly when the remote peer is a key of the map. The value depends on nothing else: on
any other filter state that agrees on that one peer, and for any other stream of the same
remote peer, it is the same. -/
theorem handleCanHop_iff_IsAllowed (pf : PeerFilter P) (s : Stream P)
    (h : pf.mx.writer = false) :
    handleCanHop pf s = IsAllowed pf s.Conn.RemotePeer ∧
    (∃ b : Bool, handleCanHop pf s = .ret pf b ∧ IsAllowed pf s.Conn.RemotePeer = .ret pf b ∧
      (b = true ↔ s.Conn.RemotePeer ∈ pf.allowed.keySet)) ∧
    (∀ (pf2 : PeerFilter P) (s2 : Stream P), pf2.mx.writer = false →
      s2.Conn.RemotePeer = s.Conn.RemotePeer →
      (IsAllowed pf2 s.Conn.RemotePeer).value? = (IsAllowed pf s.Conn.RemotePeer).value? →
      (handleCanHop pf2 s2).value? = (handleCanHop pf s).value?) := by
  refine ⟨rfl, ⟨pf.allowed.lookup s.Conn.RemotePeer, ?_, ?_, ?_⟩, ?_⟩
  · exact IsAllowed_no_writer pf _ h
  · exact IsAllowed_no_writer pf _ h
  · exact lookup_eq_true_iff _ _
  · intro pf2 s2 _ hs hv
    unfold handleCanHop
    rw [hs]
    exact hv

/-- C3 at a filter allowing only `"QmA"`, with two readers holding the mutex, and a stream
from `"QmA"`. -/
theorem handleCanHop_iff_IsAllowed_witness :
    handleCanHop ({ allowed := .mk {"QmA"}, mx := { writer := false, readers := 2 } }
        : PeerFilter String) ⟨⟨"QmA"⟩⟩
      = .ret { allowed := .mk {"QmA"}, mx := { writer := false, readers := 2 } } true := by
  obtain ⟨b, hb, -, hmem⟩ := (handleCanHop_iff_IsAllowed
    ({ allowed := .mk {"QmA"}, mx := { writer := false, readers := 2 } } : PeerFilter String)
    ⟨⟨"QmA"⟩⟩ rfl).2.1
  have : b = true := hmem.2 (by decide)
  rw [hb, this]

/-! ## Construction -/

/-- C4: `New()` with no identities returns a filter (the zero filter) on which `IsAllowed`
returns false for every identity, `handleCanHop` returns false for every stream, and
`handleHopConn` returns false for every stream and destination; each call returns normally
and leaves the filter as it was. -/
theorem New_empty_fail_closed :
    ∃ pf : PeerFilter P, New ([] : List P) = .ret pf () ∧
      (∀ a : P, IsAllowed pf a = .ret pf false) ∧
      (∀ s : Stream P, handleCanHop pf s = .ret pf false) ∧
      (∀ (s : Stream P) (dst : AddrInfo P), handleHopConn pf s dst = .ret pf false) :=
  ⟨PeerFilter.zero, rfl, fun _ => rfl, fun _ => rfl, fun _ _ => rfl⟩

/-- C5, evaluated at the failing input `New("QmA")`: the constructor writes `"QmA"` into
the map of `PeerFilter{}`, which is nil, and panics; no filter is returned, so there is none
on which `IsAllowed("QmA")` is true. The same happens with a duplicate. -/
theorem New_with_identity_panics :
    New ["QmA"] = .panicked PeerFilter.zero .nilMapAssign ∧
    (New ["QmA"]).returned = false ∧
    New ["QmA", "QmA"] = .panicked PeerFilter.zero .nilMapAssign ∧
    ¬ ∃ pf : PeerFilter String, New ["QmA"] = .ret pf () := by
  refine ⟨rfl, rfl, rfl, ?_⟩
  rintro ⟨pf, h⟩
  rw [New_cons] at h
  cases h

/-- C6, evaluated at the failing inputs: `New("QmA", "QmB")` does not return normally, and on
the filter that `New()` returns `Allow("QmB")` does not return normally either; both end in
the panic of a write to a nil map. `Unallow` and the three queries do return on that
filter. -/
theorem New_and_Allow_do_not_return :
    (New ["QmA", "QmB"]).returned = false ∧
    New ["QmA", "QmB"] = .panicked PeerFilter.zero .nilMapAssign ∧
    Reachable (PeerFilter.zero : PeerFilter String) ∧
    (Allow (PeerFilter.zero : PeerFilter String) "QmB").returned = false ∧
    (Unallow (PeerFilter.zero : PeerFilter String) "QmB").returned = true ∧
    (IsAllowed (PeerFilter.zero : PeerFilter String) "QmB").returned = true ∧
    (handleHopConn (PeerFilter.zero : PeerFilter String) ⟨⟨"QmA"⟩⟩ ⟨"QmB", []⟩).returned = true ∧
    (handleCanHop (PeerFilter.zero : PeerFilter String) ⟨⟨"QmA"⟩⟩).returned = true :=
  ⟨rfl, rfl, (reachable_iff _).2 rfl, rfl, rfl, rfl, rfl, rfl⟩

/-! ## Algebra of the mutations -/

/-- C7: from every filter state, the run `Allow(a); Allow(a)` leaves the same filter (the
same map, hence the same membership) as the run `Allow(a)`, and the two runs return or fail
alike; on a filter reachable from `New`, whose map is nil, both end in the same panic at the
first call. `Unallow(a)` for an identity that is not a member returns normally and
leaves the filter exactly as it was, on every filter whose mutex is free, which covers every
filter reachable from `New`, the freshly constructed one included. -/
theorem Allow_twice_Unallow_absent (pf : PeerFilter P) (a : P) :
    (runCalls pf [.Allow a, .Allow a]).state = (runCalls pf [.Allow a]).state ∧
    (runCalls pf [.Allow a, .Allow a]).returned = (runCalls pf [.Allow a]).returned ∧
    (pf.mx = RWMutex.zero → pf.allowed.lookup a = false → Unallow pf a = .ret pf ()) ∧
    (Reachable pf → pf.allowed.lookup a = false ∧ Unallow pf a = .ret pf ()) := by
  have hstate : (runCalls pf [.Allow a, .Allow a]).state = (runCalls pf [.Allow a]).state ∧
      (runCalls pf [.Allow a, .Allow a]).returned = (runCalls pf [.Allow a]).returned := by
    by_cases hl : pf.mx = RWMutex.zero
    · obtain ⟨m, l⟩ := pf
      simp only at hl
      subst hl
      cases m with
      | nil => simp [runCalls, run_Allow_nil]
      | mk keys =>
        simp [runCalls, run_Allow_mk, Outcome.mapValue, Outcome.state, Outcome.returned]
    · simp [runCalls, run_Allow_blocked pf a hl]
  have hun : pf.mx = RWMutex.zero → pf.allowed.lookup a = false → Unallow pf a = .ret pf () := by
    intro hl ha
    rw [Unallow_free pf a hl]
    obtain ⟨m, l⟩ := pf
    simp only at hl ha
    subst hl
    cases m with
    | nil => rfl
    | mk keys =>
      have hmem : a ∉ keys := by simpa [GoMap.lookup] using ha
      simp [GoMap.delete, Finset.erase_eq_of_not_mem hmem]
  refine ⟨hstate.1, hstate.2, hun, ?_⟩
  intro hr
  have hz := (reachable_iff pf).1 hr
  subst hz
  exact ⟨rfl, rfl⟩

/-- C7 at the filter `New()` returns and at a filter whose map holds `"QmB"`, for the
identity `"QmA"`, absent from both. -/
theorem Allow_twice_Unallow_absent_witness :
    Reachable (PeerFilter.zero : PeerFilter String) ∧
    Unallow (PeerFilter.zero : PeerFilter String) "QmA" = .ret PeerFilter.zero () ∧
    Unallow ({ allowed := .mk {"QmB"}, mx := RWMutex.zero } : PeerFilter String) "QmA"
      = .ret { allowed := .mk {"QmB"}, mx := RWMutex.zero } () ∧
    (runCalls ({ allowed := .mk {"QmB"}, mx := RWMutex.zero } : PeerFilter String)
        [.Allow "QmA", .Allow "QmA"]).state
      = (runCalls ({ allowed := .mk {"QmB"}, mx := RWMutex.zero } : PeerFilter String)
        [.Allow "QmA"]).state :=
  ⟨(reachable_iff _).2 rfl,
   ((Allow_twice_Unallow_absent (PeerFilter.zero : PeerFilter String) "QmA").2.2.2
      ((reachable_iff _).2 rfl)).2,
   (Allow_twice_Unallow_absent
      ({ allowed := .mk {"QmB"}, mx := RWMutex.zero } : PeerFilter String) "QmA").2.2.1
      rfl (by decide),
   (Allow_twice_Unallow_absent
      ({ allowed := .mk {"QmB"}, mx := RWMutex.zero } : PeerFilter String) "QmA").1⟩

/-- C8, evaluated at the failing input `New()`, then `IsAllowed("QmB")`, `Allow("QmA")`,
`IsAllowed("QmB")`: before the call `IsAllowed("QmB")` returns false; `Allow("QmA")` panics
on the nil map while it holds the write lock, so the second `IsAllowed("QmB")` is never made
and the run yields no value for it; made on the state the panic leaves, it waits forever on
the mutex instead of returning false. -/
theorem IsAllowed_other_after_Allow_on_new_filter :
    New ([] : List String) = .ret PeerFilter.zero () ∧
    IsAllowed (PeerFilter.zero : PeerFilter String) "QmB" = .ret PeerFilter.zero false ∧
    runCalls (PeerFilter.zero : PeerFilter String)
        [.IsAllowed "QmB", .Allow "QmA", .IsAllowed "QmB"]
      = .panicked { allowed := .nil, mx := { writer := true, readers := 0 } } .nilMapAssign ∧
    (runCalls (PeerFilter.zero : PeerFilter String)
        [.IsAllowed "QmB", .Allow "QmA", .IsAllowed "QmB"]).value? = none ∧
    IsAllowed (Allow (PeerFilter.zero : PeerFilter String) "QmA").state "QmB"
      = .blocked (Allow (PeerFilter.zero : PeerFilter String) "QmA").state := by
  decide

/-- C9: for distinct identities `a` and `b` and every filter state, running `op1(a); op2(b)`
and running `op2(b); op1(a)` give the same outcome (both return, with the same values, or
both end in the same panic, or both wait on the mutex) and leave the same filter, hence the
same membership, for each choice of `op1` and `op2` among `Allow` and `Unallow`. -/
theorem mutations_on_distinct_identities_commute (pf : PeerFilter P) (a b : P) (hab : a ≠ b) :
    runCalls pf [.Allow a, .Allow b] = runCalls pf [.Allow b, .Allow a] ∧
    runCalls pf [.Allow a, .Unallow b] = runCalls pf [.Unallow b, .Allow a] ∧
    runCalls pf [.Unallow a, .Allow b] = runCalls pf [.Allow b, .Unallow a] ∧
    runCalls pf [.Unallow a, .Unallow b] = runCalls pf [.Unallow b, .Unallow a] := by
  by_cases hl : pf.mx = RWMutex.zero
  · obtain ⟨m, l⟩ := pf
    simp only at hl
    subst hl
    cases m with
    | nil =>
      simp [runCalls, run_Allow_nil, run_Unallow_free, GoMap.delete, Outcome.mapValue]
    | mk keys =>
      simp [runCalls, run_Allow_mk, run_Unallow_free, GoMap.delete, Outcome.mapValue,
        Finset.Insert.comm a b keys, Finset.erase_insert_of_ne hab,
        Finset.erase_insert_of_ne (Ne.symm hab), Finset.erase_right_comm]
  · simp [runCalls, run_Allow_blocked pf _ hl, run_Unallow_blocked pf _ hl]

/-- C9 at a filter whose map holds `"QmB"`, for `Allow("QmA")` and `Unallow("QmB")`, and at
the filter `New()` returns. -/
theorem mutations_on_distinct_identities_commute_witness :
    "QmA" ≠ "QmB" ∧
    runCalls ({ allowed := .mk {"QmB"}, mx := RWMutex.zero } : PeerFilter String)
        [.Allow "QmA", .Unallow "QmB"]
      = runCalls ({ allowed := .mk {"QmB"}, mx := RWMutex.zero } : PeerFilter String)
        [.Unallow "QmB", .Allow "QmA"] ∧
    runCalls (PeerFilter.zero : PeerFilter String) [.Allow "QmA", .Unallow "QmB"]
      = runCalls (PeerFilter.zero : PeerFilter String) [.Unallow "QmB", .Allow "QmA"] :=
  ⟨by decide,
   (mutations_on_distinct_identities_commute
      ({ allowed := .mk {"QmB"}, mx := RWMutex.zero } : PeerFilter String) "QmA" "QmB"
      (by decide)).2.1,
   (mutations_on_distinct_identities_commute (PeerFilter.zero : PeerFilter String)
      "QmA" "QmB" (by decide)).2.1⟩

/-! ## The acceptor -/

/-- An acceptor taken before `Allow("QmT")` on a filter with an empty, non-nil map answers
false before the call and true after it: the callbacks read the memory of the invocation. -/
theorem acceptor_sees_later_Allow :
    ∃ acc : Acceptor String,
      GetAcceptor [{ allowed := .mk ∅, mx := RWMutex.zero }] 0
        = .ret [{ allowed := .mk ∅, mx := RWMutex.zero }] acc ∧
      (acc.HopConn [{ allowed := .mk ∅, mx := RWMutex.zero }] ⟨⟨"QmR"⟩⟩ ⟨"QmT", []⟩).value?
        = some false ∧
      (acc.HopConn
          (onHeap [{ allowed := .mk ∅, mx := RWMutex.zero }] 0 (fun x => Allow x "QmT")).state
          ⟨⟨"QmR"⟩⟩ ⟨"QmT", []⟩).value? = some true :=
  ⟨_, rfl, by decide, by decide⟩

theorem heap_set_self {Q : Type} (h : Heap Q) (pf : Nat) (x : PeerFilter Q)
    (hx : h.get? pf = some x) : h.set pf x = h := by
  induction h generalizing pf with
  | nil => rfl
  | cons y ys ih =>
    cases pf with
    | zero =>
      simp only [List.get?, Option.some.injEq] at hx
      subst hx
      rfl
    | succ n =>
      simp only [List.get?] at hx
      simp only [List.set, ih n hx]

theorem heap_get_set {Q : Type} (h : Heap Q) (pf : Nat) (x y : PeerFilter Q)
    (hx : h.get? pf = some x) : (h.set pf y).get? pf = some y := by
  induction h generalizing pf with
  | nil => cases hx
  | cons z zs ih =>
    cases pf with
    | zero => rfl
    | succ n =>
      simp only [List.get?] at hx
      simp only [List.set, List.get?, ih n hx]

theorem onHeap_ret_same {Q α : Type} (h : Heap Q) (pf : Nat) (x : PeerFilter Q) (a : α)
    (f : PeerFilter Q → Outcome (PeerFilter Q) α)
    (hx : h.get? pf = some x) (hf : f x = .ret x a) : onHeap h pf f = .ret h a := by
  simp only [onHeap, hx, hf, heap_set_self h pf x hx]

theorem onHeap_blocked_same {Q α : Type} (h : Heap Q) (pf : Nat) (x : PeerFilter Q)
    (f : PeerFilter Q → Outcome (PeerFilter Q) α)
    (hx : h.get? pf = some x) (hf : f x = .blocked x) : onHeap h pf f = .blocked h := by
  simp only [onHeap, hx, hf, heap_set_self h pf x hx]

theorem onHeap_state {Q α : Type} (h : Heap Q) (pf : Nat) (x : PeerFilter Q)
    (f : PeerFilter Q → Outcome (PeerFilter Q) α)
    (hx : h.get? pf = some x) : (onHeap h pf f).state = h.set pf (f x).state := by
  simp only [onHeap, hx]
  cases f x <;> rfl

/-- C10: let `acc` be the acceptor `GetAcceptor` returns for the pointer `pf` in a memory
`h0` whose filter at `pf` is `x`, with its mutex free. Invoked in any memory `h`, its
callbacks answer from the filter `y` that `h` holds at `pf`, not from `x`: with no writer on
the mutex of `y` they return the values `handleHopConn` and `handleCanHop` return on `y`,
which are the membership in the map of `y`. In particular, in the memory left by a later
`Unallow(a)` they answer from the map with `a` deleted, in the memory left by a later
`Allow(a)` on a made map they answer from the map with `a` inserted, and in the memory left
by a later `Allow(a)` on a nil map, which panicked holding the write lock, they wait on the
mutex as `handleHopConn` and `handleCanHop` do there. An acceptor taken from the same filter
in any other memory answers the same for the same arguments. -/
theorem acceptor_is_live_view (h0 : Heap P) (pf : Nat) (x : PeerFilter P)
    (hx : h0.get? pf = some x) (hfree : x.mx = RWMutex.zero) :
    ∃ acc : Acceptor P, GetAcceptor h0 pf = .ret h0 acc ∧
      (∀ (h : Heap P) (y : PeerFilter P) (s : Stream P) (dst : AddrInfo P),
        h.get? pf = some y → y.mx.writer = false →
        acc.HopConn h s dst
          = .ret h (y.allowed.lookup s.Conn.RemotePeer || y.allowed.lookup dst.ID) ∧
        handleHopConn y s dst
          = .ret y (y.allowed.lookup s.Conn.RemotePeer || y.allowed.lookup dst.ID) ∧
        acc.CanHop h s = .ret h (y.allowed.lookup s.Conn.RemotePeer) ∧
        handleCanHop y s = .ret y (y.allowed.lookup s.Conn.RemotePeer)) ∧
      (∀ (a : P) (s : Stream P) (dst : AddrInfo P),
        (onHeap h0 pf (fun y => Unallow y a)).state
          = h0.set pf { allowed := x.allowed.delete a, mx := RWMutex.zero } ∧
        acc.HopConn (onHeap h0 pf (fun y => Unallow y a)).state s dst
          = .ret (onHeap h0 pf (fun y => Unallow y a)).state
              ((x.allowed.delete a).lookup s.Conn.RemotePeer
                || (x.allowed.delete a).lookup dst.ID) ∧
        acc.CanHop (onHeap h0 pf (fun y => Unallow y a)).state s
          = .ret (onHeap h0 pf (fun y => Unallow y a)).state
              ((x.allowed.delete a).lookup s.Conn.RemotePeer)) ∧
      (∀ (keys : Finset P) (a : P) (s : Stream P) (dst : AddrInfo P), x.allowed = .mk keys →
        (onHeap h0 pf (fun y => Allow y a)).state
          = h0.set pf { allowed := .mk (insert a keys), mx := RWMutex.zero } ∧
        acc.HopConn (onHeap h0 pf (fun y => Allow y a)).state s dst
          = .ret (onHeap h0 pf (fun y => Allow y a)).state
              (decide (s.Conn.RemotePeer ∈ insert a keys) || decide (dst.ID ∈ insert a keys)) ∧
        acc.CanHop (onHeap h0 pf (fun y => Allow y a)).state s
          = .ret (onHeap h0 pf (fun y => Allow y a)).state
              (decide (s.Conn.RemotePeer ∈ insert a keys))) ∧
      (∀ (a : P) (s : Stream P) (dst : AddrInfo P), x.allowed = .nil →
        (onHeap h0 pf (fun y => Allow y a)).state
          = h0.set pf { allowed := .nil, mx := { writer := true, readers := 0 } } ∧
        acc.HopConn (onHeap h0 pf (fun y => Allow y a)).state s dst
          = .blocked (onHeap h0 pf (fun y => Allow y a)).state ∧
        acc.CanHop (onHeap h0 pf (fun y => Allow y a)).state s
          = .blocked (onHeap h0 pf (fun y => Allow y a)).state ∧
        handleHopConn (Allow x a).state s dst = .blocked (Allow x a).state ∧
        handleCanHop (Allow x a).state s = .blocked (Allow x a).state) ∧
      (∀ h1 : Heap P, ∃ acc1 : Acceptor P, GetAcceptor h1 pf = .ret h1 acc1 ∧
        (∀ (h : Heap P) (s : Stream P) (dst : AddrInfo P),
          acc1.HopConn h s dst = acc.HopConn h s dst) ∧
        (∀ (h : Heap P) (s : Stream P), acc1.CanHop h s = acc.CanHop h s)) := by
  refine ⟨_, rfl, ?_, ?_, ?_, ?_, fun _ => ⟨_, rfl, fun _ _ _ => rfl, fun _ _ => rfl⟩⟩
  · intro h y s dst hy hw
    exact ⟨onHeap_ret_same h pf y _ _ hy (handleHopConn_no_writer y s dst hw),
      handleHopConn_no_writer y s dst hw,
      onHeap_ret_same h pf y _ _ hy (IsAllowed_no_writer y _ hw),
      IsAllowed_no_writer y _ hw⟩
  · intro a s dst
    have hs : (onHeap h0 pf (fun y => Unallow y a)).state
        = h0.set pf { allowed := x.allowed.delete a, mx := RWMutex.zero } := by
      rw [onHeap_state h0 pf x _ hx, Unallow_free x a hfree]
      rfl
    have hg := heap_get_set h0 pf x { allowed := x.allowed.delete a, mx := RWMutex.zero } hx
    rw [hs]
    exact ⟨rfl,
      onHeap_ret_same _ pf _ _ _ hg (handleHopConn_no_writer _ s dst rfl),
      onHeap_ret_same _ pf _ _ _ hg (IsAllowed_no_writer _ _ rfl)⟩
  · intro keys a s dst hk
    obtain ⟨m, l⟩ := x
    simp only at hfree hk
    subst hfree hk
    have hs : (onHeap h0 pf (fun y => Allow y a)).state
        = h0.set pf { allowed := .mk (insert a keys), mx := RWMutex.zero } := by
      rw [onHeap_state h0 pf _ _ hx, Allow_mk]
      rfl
    have hg := heap_get_set h0 pf _
      ({ allowed := .mk (insert a keys), mx := RWMutex.zero } : PeerFilter P) hx
    rw [hs]
    exact ⟨rfl,
      onHeap_ret_same _ pf _ _ _ hg (handleHopConn_no_writer _ s dst rfl),
      onHeap_ret_same _ pf _ _ _ hg (IsAllowed_no_writer _ _ rfl)⟩
  · intro a s dst hn
    have hA := Allow_nilMap x a hn hfree
    have hs : (onHeap h0 pf (fun y => Allow y a)).state
        = h0.set pf { allowed := .nil, mx := { writer := true, readers := 0 } } := by
      rw [onHeap_state h0 pf x _ hx, hA]
      rfl
    have hg := heap_get_set h0 pf x
      ({ allowed := .nil, mx := { writer := true, readers := 0 } } : PeerFilter P) hx
    rw [hs, hA]
    exact ⟨rfl,
      onHeap_blocked_same _ pf _ _ hg (handleHopConn_writer _ s dst rfl),
      onHeap_blocked_same _ pf _ _ hg (IsAllowed_writer _ _ rfl),
      handleHopConn_writer _ s dst rfl,
      IsAllowed_writer _ _ rfl⟩

/-- C10 at a memory holding one filter with a made, empty map: the acceptor taken there
answers false for the requester `"QmR"` and the target `"QmT"`, and true in the memory left
by a later `Allow("QmT")`; and at a memory holding the filter `New()` returns: the acceptor
answers false there, and false in the memory left by a later `Unallow("QmT")`. -/
theorem acceptor_is_live_view_witness :
    (∃ acc : Acceptor String,
      GetAcceptor [{ allowed := .mk ∅, mx := RWMutex.zero }] 0
        = .ret [{ allowed := .mk ∅, mx := RWMutex.zero }] acc ∧
      acc.HopConn [{ allowed := .mk ∅, mx := RWMutex.zero }] ⟨⟨"QmR"⟩⟩ ⟨"QmT", []⟩
        = .ret [{ allowed := .mk ∅, mx := RWMutex.zero }] false ∧
      acc.HopConn
          (onHeap [{ allowed := .mk ∅, mx := RWMutex.zero }] 0 (fun y => Allow y "QmT")).state
          ⟨⟨"QmR"⟩⟩ ⟨"QmT", []⟩
        = .ret [{ allowed := .mk {"QmT"}, mx := RWMutex.zero }] true ∧
      acc.CanHop
          (onHeap [{ allowed := .mk ∅, mx := RWMutex.zero }] 0 (fun y => Allow y "QmR")).state
          ⟨⟨"QmR"⟩⟩
        = .ret [{ allowed := .mk {"QmR"}, mx := RWMutex.zero }] true) ∧
    (∃ acc : Acceptor String,
      GetAcceptor [(PeerFilter.zero : PeerFilter String)] 0 = .ret [PeerFilter.zero] acc ∧
      acc.HopConn [PeerFilter.zero] ⟨⟨"QmR"⟩⟩ ⟨"QmT", []⟩ = .ret [PeerFilter.zero] false ∧
      acc.HopConn
          (onHeap [(PeerFilter.zero : PeerFilter String)] 0 (fun y => Unallow y "QmT")).state
          ⟨⟨"QmR"⟩⟩ ⟨"QmT", []⟩
        = .ret [PeerFilter.zero] false) := by
  constructor
  · obtain ⟨acc, hacc, hany, -, hallow, -, -⟩ :=
      acceptor_is_live_view [({ allowed := .mk ∅, mx := RWMutex.zero } : PeerFilter String)] 0
        { allowed := .mk ∅, mx := RWMutex.zero } rfl rfl
    refine ⟨acc, hacc, ?_, ?_, ?_⟩
    · exact (hany [{ allowed := .mk ∅, mx := RWMutex.zero }]
        { allowed := .mk ∅, mx := RWMutex.zero } ⟨⟨"QmR"⟩⟩ ⟨"QmT", []⟩ rfl rfl).1.trans
        (by decide)
    · exact (hallow ∅ "QmT" ⟨⟨"QmR"⟩⟩ ⟨"QmT", []⟩ rfl).2.1.trans (by decide)
    · exact (hallow ∅ "QmR" ⟨⟨"QmR"⟩⟩ ⟨"QmT", []⟩ rfl).2.2.trans (by decide)
  · obtain ⟨acc, hacc, hany, hunallow, -, -, -⟩ :=
      acceptor_is_live_view [(PeerFilter.zero : PeerFilter String)] 0 PeerFilter.zero rfl rfl
    refine ⟨acc, hacc, ?_, ?_⟩
    · exact (hany [PeerFilter.zero] PeerFilter.zero ⟨⟨"QmR"⟩⟩ ⟨"QmT", []⟩ rfl rfl).1.trans
        (by decide)
    · exact (hunallow "QmT" ⟨⟨"QmR"⟩⟩ ⟨"QmT", []⟩).2.1.trans (by decide)

/-! ## Queries -/

theorem state_mapValue {σ α β : Type} (f : α → β) (o : Outcome σ α) :
    (o.mapValue f).state = o.state := by
  cases o <;> rfl

theorem mapValue_mapValue {σ α β γ : Type} (f : α → β) (g : β → γ) (o : Outcome σ α) :
    (o.mapValue f).mapValue g = o.mapValue (fun a => g (f a)) := by
  cases o <;> rfl

theorem IsAllowed_state (pf : PeerFilter P) (p : P) : (IsAllowed pf p).state = pf := by
  cases hw : pf.mx.writer with
  | false => rw [IsAllowed_no_writer pf p hw]; rfl
  | true => rw [IsAllowed_writer pf p hw]; rfl

theorem handleHopConn_state (pf : PeerFilter P) (s : Stream P) (dst : AddrInfo P) :
    (handleHopConn pf s dst).state = pf := by
  cases hw : pf.mx.writer with
  | false => rw [handleHopConn_no_writer pf s dst hw]; rfl
  | true => rw [handleHopConn_writer pf s dst hw]; rfl

theorem run_query_no_writer (pf : PeerFilter P) (c : Call P) (hq : c.isMutation = false)
    (hw : pf.mx.writer = false) : ∃ b : Bool, Call.run pf c = .ret pf (some b) := by
  cases c with
  | Allow p => cases hq
  | Unallow p => cases hq
  | IsAllowed p =>
    exact ⟨pf.allowed.lookup p,
      by simp [Call.run, IsAllowed_no_writer pf p hw, Outcome.mapValue]⟩
  | handleHopConn s dst =>
    exact ⟨pf.allowed.lookup s.Conn.RemotePeer || pf.allowed.lookup dst.ID,
      by simp [Call.run, handleHopConn_no_writer pf s dst hw, Outcome.mapValue]⟩
  | handleCanHop s =>
    exact ⟨pf.allowed.lookup s.Conn.RemotePeer,
      by simp [Call.run, handleCanHop, IsAllowed_no_writer pf _ hw, Outcome.mapValue]⟩

theorem mx_ne_zero_of_writer (m : RWMutex) (hw : m.writer = true) : m ≠ RWMutex.zero := by
  intro h
  rw [h] at hw
  cases hw

theorem run_blocked_of_writer (pf : PeerFilter P) (c : Call P) (hw : pf.mx.writer = true) :
    Call.run pf c = .blocked pf := by
  cases c with
  | Allow p => exact run_Allow_blocked pf p (mx_ne_zero_of_writer pf.mx hw)
  | Unallow p => exact run_Unallow_blocked pf p (mx_ne_zero_of_writer pf.mx hw)
  | IsAllowed p => simp [Call.run, IsAllowed_writer pf p hw, Outcome.mapValue]
  | handleHopConn s dst => simp [Call.run, handleHopConn_writer pf s dst hw, Outcome.mapValue]
  | handleCanHop s => simp [Call.run, handleCanHop, IsAllowed_writer pf _ hw, Outcome.mapValue]

theorem runCalls_state_of_writer (pf : PeerFilter P) (cs : List (Call P))
    (hw : pf.mx.writer = true) : (runCalls pf cs).state = pf := by
  cases cs with
  | nil => rfl
  | cons c cs => simp [runCalls, run_blocked_of_writer pf c hw, Outcome.state]

theorem run_mutation_ret_mx (pf pf1 : PeerFilter P) (c : Call P) (v : Option Bool)
    (hm : c.isMutation = true) (h : Call.run pf c = .ret pf1 v) : pf1.mx = RWMutex.zero := by
  by_cases hl : pf.mx = RWMutex.zero
  · obtain ⟨m, l⟩ := pf
    simp only at hl
    subst hl
    cases c with
    | Allow p =>
      cases m with
      | nil => rw [run_Allow_nil] at h; cases h
      | mk keys => rw [run_Allow_mk] at h; cases h; rfl
    | Unallow p => rw [run_Unallow_free] at h; cases h; rfl
    | IsAllowed p => cases hm
    | handleHopConn s dst => cases hm
    | handleCanHop s => cases hm
  · cases c with
    | Allow p => rw [run_Allow_blocked pf p hl] at h; cases h
    | Unallow p => rw [run_Unallow_blocked pf p hl] at h; cases h
    | IsAllowed p => cases hm
    | handleHopConn s dst => cases hm
    | handleCanHop s => cases hm

theorem runCalls_state_filter (pf : PeerFilter P) (cs : List (Call P)) :
    (runCalls pf cs).state = (runCalls pf (cs.filter Call.isMutation)).state := by
  induction cs generalizing pf with
  | nil => rfl
  | cons c cs ih =>
    cases hm : c.isMutation with
    | true =>
      rw [List.filter_cons_of_pos hm]
      unfold runCalls
      cases Call.run pf c with
      | ret pf1 v => simp only [state_mapValue]; exact ih pf1
      | panicked pf1 e => rfl
      | blocked pf1 => rfl
    | false =>
      rw [List.filter_cons_of_neg (by simp [hm])]
      cases hw : pf.mx.writer with
      | false =>
        obtain ⟨b, hb⟩ := run_query_no_writer pf c hm hw
        rw [← ih pf]
        simp [runCalls, hb, state_mapValue]
      | true =>
        rw [runCalls_state_of_writer pf _ hw, runCalls_state_of_writer pf _ hw]

theorem runCalls_fate_filter (pf : PeerFilter P) (cs : List (Call P))
    (hw : pf.mx.writer = false) :
    (runCalls pf cs).mapValue (fun _ => ())
      = (runCalls pf (cs.filter Call.isMutation)).mapValue (fun _ => ()) := by
  induction cs generalizing pf with
  | nil => rfl
  | cons c cs ih =>
    cases hm : c.isMutation with
    | true =>
      rw [List.filter_cons_of_pos hm]
      unfold runCalls
      cases hc : Call.run pf c with
      | ret pf1 v =>
        have h1 : pf1.mx.writer = false := by
          rw [run_mutation_ret_mx pf pf1 c v hm hc]; rfl
        simp only [mapValue_mapValue]
        exact ih pf1 h1
      | panicked pf1 e => rfl
      | blocked pf1 => rfl
    | false =>
      rw [List.filter_cons_of_neg (by simp [hm])]
      obtain ⟨b, hb⟩ := run_query_no_writer pf c hm hw
      rw [← ih pf hw]
      simp [runCalls, hb, mapValue_mapValue]

/-- C11: from every filter state and for every argument, `IsAllowed`, `handleHopConn` and
`handleCanHop` leave the filter exactly as it was, map and mutex, whether they return or wait
on the mutex. So a run of calls leaves the same filter as the run of its `Allow` and
`Unallow` calls alone, with the queries taken out, and any call made afterwards has the same
result in both; and when no writer holds the mutex at the start, the two runs also end the
same way (both return, or both stop at the same panic or wait). -/
theorem queries_do_not_mutate (pf : PeerFilter P) :
    (∀ p : P, (IsAllowed pf p).state = pf) ∧
    (∀ (s : Stream P) (dst : AddrInfo P), (handleHopConn pf s dst).state = pf) ∧
    (∀ s : Stream P, (handleCanHop pf s).state = pf) ∧
    (∀ cs : List (Call P),
      (runCalls pf cs).state = (runCalls pf (cs.filter Call.isMutation)).state) ∧
    (∀ (cs : List (Call P)) (q : Call P),
      Call.run (runCalls pf cs).state q
        = Call.run (runCalls pf (cs.filter Call.isMutation)).state q) ∧
    (pf.mx.writer = false → ∀ cs : List (Call P),
      (runCalls pf cs).mapValue (fun _ => ())
        = (runCalls pf (cs.filter Call.isMutation)).mapValue (fun _ => ())) :=
  ⟨IsAllowed_state pf, handleHopConn_state pf, fun s => IsAllowed_state pf _,
    runCalls_state_filter pf, fun cs q => by rw [runCalls_state_filter pf cs],
    fun hw cs => runCalls_fate_filter pf cs hw⟩

/-- C11 at a filter whose map holds `"QmB"`: queries interleaved with `Allow("QmA")` and
`Unallow("QmB")` leave the filter those two calls alone leave, whose map holds `"QmA"`. -/
theorem queries_do_not_mutate_witness :
    (runCalls ({ allowed := .mk {"QmB"}, mx := RWMutex.zero } : PeerFilter String)
        [.IsAllowed "QmB", .Allow "QmA", .handleCanHop ⟨⟨"QmA"⟩⟩, .Unallow "QmB",
          .handleHopConn ⟨⟨"QmA"⟩⟩ ⟨"QmB", []⟩]).mapValue (fun _ => ())
      = .ret { allowed := .mk {"QmA"}, mx := RWMutex.zero } () :=
  ((queries_do_not_mutate
      ({ allowed := .mk {"QmB"}, mx := RWMutex.zero } : PeerFilter String)).2.2.2.2.2 rfl
      [.IsAllowed "QmB", .Allow "QmA", .handleCanHop ⟨⟨"QmA"⟩⟩, .Unallow "QmB",
        .handleHopConn ⟨⟨"QmA"⟩⟩ ⟨"QmB", []⟩]).trans (by decide)

/-! ## The nil map -/

theorem run_zero (c : Call P) :
    (∃ p : P, c = .Allow p ∧
      Call.run (PeerFilter.zero : PeerFilter P) c
        = .panicked { allowed := .nil, mx := { writer := true, readers := 0 } }
            .nilMapAssign) ∨
    ((∀ p : P, c ≠ .Allow p) ∧
      (Call.run (PeerFilter.zero : PeerFilter P) c = .ret PeerFilter.zero none ∨
       Call.run (PeerFilter.zero : PeerFilter P) c = .ret PeerFilter.zero (some false))) := by
  cases c with
  | Allow p => exact Or.inl ⟨p, rfl, rfl⟩
  | Unallow p => exact Or.inr ⟨fun _ h => (by cases h), Or.inl rfl⟩
  | IsAllowed p => exact Or.inr ⟨fun _ h => (by cases h), Or.inr rfl⟩
  | handleHopConn s dst => exact Or.inr ⟨fun _ h => (by cases h), Or.inr rfl⟩
  | handleCanHop s => exact Or.inr ⟨fun _ h => (by cases h), Or.inr rfl⟩

/-- From the zero filter, a run of calls that holds an `Allow` ends in the panic of the
first `Allow`, with the write lock held. -/
theorem runCalls_zero_of_Allow_mem (cs : List (Call P)) (a : P) (ha : Call.Allow a ∈ cs) :
    runCalls (PeerFilter.zero : PeerFilter P) cs
      = .panicked { allowed := .nil, mx := { writer := true, readers := 0 } }
          .nilMapAssign := by
  induction cs with
  | nil => cases ha
  | cons c cs ih =>
    rcases run_zero c with ⟨p, -, hp⟩ | ⟨hne, hr | hr⟩
    · simp [runCalls, hp]
    · have hmem : Call.Allow a ∈ cs := by
        rcases List.mem_cons.1 ha with h | h
        · exact absurd h.symm (hne a)
        · exact h
      simp [runCalls, hr, ih hmem, Outcome.mapValue]
    · have hmem : Call.Allow a ∈ cs := by
        rcases List.mem_cons.1 ha with h | h
        · exact absurd h.symm (hne a)
        · exact h
      simp [runCalls, hr, ih hmem, Outcome.mapValue]

/-- From the zero filter, a run of calls that returns normally holds no `Allow`, leaves the
zero filter, and every query in it answered false. -/
theorem runCalls_zero_ret (cs : List (Call P)) (pf : PeerFilter P) (vs : List (Option Bool))
    (h : runCalls (PeerFilter.zero : PeerFilter P) cs = .ret pf vs) :
    pf = PeerFilter.zero ∧ (∀ a : P, Call.Allow a ∉ cs) ∧ (∀ v ∈ vs, v ≠ some true) := by
  induction cs generalizing vs with
  | nil =>
    simp only [runCalls, Outcome.ret.injEq] at h
    obtain ⟨rfl, rfl⟩ := h
    simp
  | cons c cs ih =>
    rcases run_zero c with ⟨p, -, hp⟩ | ⟨hne, hr | hr⟩
    · simp [runCalls, hp] at h
    · simp only [runCalls, hr] at h
      cases hrest : runCalls (PeerFilter.zero : PeerFilter P) cs with
      | ret pf1 vs1 =>
        rw [hrest] at h
        simp only [Outcome.mapValue, Outcome.ret.injEq] at h
        obtain ⟨rfl, rfl⟩ := h
        obtain ⟨h1, h2, h3⟩ := ih vs1 hrest
        refine ⟨h1, ?_, ?_⟩
        · intro a hmem
          rcases List.mem_cons.1 hmem with h | h
          · exact hne a h.symm
          · exact h2 a h
        · intro v hv
          rcases List.mem_cons.1 hv with h | h
          · rw [h]; simp
          · exact h3 v h
      | panicked pf1 e => rw [hrest] at h; cases h
      | blocked pf1 => rw [hrest] at h; cases h
    · simp only [runCalls, hr] at h
      cases hrest : runCalls (PeerFilter.zero : PeerFilter P) cs with
      | ret pf1 vs1 =>
        rw [hrest] at h
        simp only [Outcome.mapValue, Outcome.ret.injEq] at h
        obtain ⟨rfl, rfl⟩ := h
        obtain ⟨h1, h2, h3⟩ := ih vs1 hrest
        refine ⟨h1, ?_, ?_⟩
        · intro a hmem
          rcases List.mem_cons.1 hmem with h | h
          · exact hne a h.symm
          · exact h2 a h
        · intro v hv
          rcases List.mem_cons.1 hv with h | h
          · rw [h]; simp
          · exact h3 v h
      | panicked pf1 e => rw [hrest] at h; cases h
      | blocked pf1 => rw [hrest] at h; cases h

theorem run_state_allowed_nil (pf : PeerFilter P) (c : Call P) (hm : pf.allowed = .nil) :
    (Call.run pf c).state.allowed = .nil := by
  have hq : ∀ q : Call P, q.isMutation = false → (Call.run pf q).state.allowed = .nil := by
    intro q hq
    cases hw : pf.mx.writer with
    | false =>
      obtain ⟨b, hb⟩ := run_query_no_writer pf q hq hw
      rw [hb]; exact hm
    | true => rw [run_blocked_of_writer pf q hw]; exact hm
  by_cases hl : pf.mx = RWMutex.zero
  · obtain ⟨m, l⟩ := pf
    simp only at hl hm
    subst hl hm
    cases c <;> rfl
  · cases c with
    | Allow p => rw [run_Allow_blocked pf p hl]; exact hm
    | Unallow p => rw [run_Unallow_blocked pf p hl]; exact hm
    | IsAllowed p => exact hq _ rfl
    | handleHopConn s dst => exact hq _ rfl
    | handleCanHop s => exact hq _ rfl

/-- C12, evaluated at the failing input `New()` with two goroutines calling `Allow("QmA")`
and `Allow("QmB")` and one calling `IsAllowed("QmA")`: in each of the six orders in which
the three calls can take the mutex, the run ends in the panic of the first `Allow` on the
nil map, with the write lock held; no order completes, and on the state the panic leaves
`IsAllowed` yields no value for either identity. -/
theorem concurrent_Allow_panics_in_every_order :
    ([[.Allow "QmA", .Allow "QmB", .IsAllowed "QmA"],
      [.Allow "QmA", .IsAllowed "QmA", .Allow "QmB"],
      [.Allow "QmB", .Allow "QmA", .IsAllowed "QmA"],
      [.Allow "QmB", .IsAllowed "QmA", .Allow "QmA"],
      [.IsAllowed "QmA", .Allow "QmA", .Allow "QmB"],
      [.IsAllowed "QmA", .Allow "QmB", .Allow "QmA"]] : List (List (Call String))).map
        (fun cs => runCalls PeerFilter.zero cs)
      = List.replicate 6
          (.panicked { allowed := .nil, mx := { writer := true, readers := 0 } }
            .nilMapAssign) ∧
    New ([] : List String) = .ret PeerFilter.zero () ∧
    (IsAllowed ({ allowed := .nil, mx := { writer := true, readers := 0 } } : PeerFilter String)
      "QmA").value? = none ∧
    (IsAllowed ({ allowed := .nil, mx := { writer := true, readers := 0 } } : PeerFilter String)
      "QmB").value? = none := by
  decide

/-- C13: `PeerFilter{}` has a nil map, and `New` writes into it: for every non-empty
sequence of identities the write of the first one fails, `New` panics there with the map
still nil and returns no filter; `New()` with no identities returns a filter whose map is
nil. -/
theorem New_writes_into_nil_map (ids : List P) (hne : ids ≠ []) :
    (PeerFilter.zero : PeerFilter P).allowed = .nil ∧
    (∃ (p : P) (rest : List P), ids = p :: rest ∧
      (PeerFilter.zero : PeerFilter P).allowed.assign p = none) ∧
    New ids = .panicked PeerFilter.zero .nilMapAssign ∧
    (New ids).returned = false ∧
    (∃ pf : PeerFilter P, New ([] : List P) = .ret pf () ∧ pf.allowed = .nil) := by
  cases ids with
  | nil => exact absurd rfl hne
  | cons p rest =>
    exact ⟨rfl, ⟨p, rest, rfl, rfl⟩, rfl, rfl, ⟨PeerFilter.zero, rfl, rfl⟩⟩

/-- C13 at `New("QmA", "QmB")`. -/
theorem New_writes_into_nil_map_witness :
    ["QmA", "QmB"] ≠ [] ∧ New ["QmA", "QmB"] = .panicked PeerFilter.zero .nilMapAssign :=
  ⟨by decide, (New_writes_into_nil_map ["QmA", "QmB"] (by decide)).2.2.1⟩

/-- C14: no call makes the map: run from any state whose map is nil, each of the five calls
leaves the map nil, and so does `New`. So on a filter obtained from `New`, or on the zero
value of `PeerFilter`, after any run of calls that returned normally: the map is still nil,
the run held no `Allow` and every query in it answered false, `Allow(p)` fails with the
nil-map write for every `p`, and `IsAllowed`, `handleCanHop` and `handleHopConn` return
false for all arguments. -/
theorem map_stays_nil (ids : List P) (pf0 pf : PeerFilter P) (cs : List (Call P))
    (vs : List (Option Bool))
    (h0 : New ids = .ret pf0 () ∨ pf0 = PeerFilter.zero)
    (hrun : runCalls pf0 cs = .ret pf vs) :
    (∀ (x : PeerFilter P) (c : Call P), x.allowed = .nil → (Call.run x c).state.allowed = .nil) ∧
    (∀ l : List P, (New l).state.allowed = .nil) ∧
    pf.allowed = .nil ∧
    (∀ a : P, Call.Allow a ∉ cs) ∧
    (∀ v ∈ vs, v ≠ some true) ∧
    (∀ p : P, Allow pf p
      = .panicked { allowed := .nil, mx := { writer := true, readers := 0 } } .nilMapAssign) ∧
    (∀ p : P, IsAllowed pf p = .ret pf false) ∧
    (∀ s : Stream P, handleCanHop pf s = .ret pf false) ∧
    (∀ (s : Stream P) (dst : AddrInfo P), handleHopConn pf s dst = .ret pf false) := by
  have hz0 : pf0 = PeerFilter.zero := by
    rcases h0 with h | h
    · exact ((New_ret_iff ids pf0).1 h).2
    · exact h
  subst hz0
  obtain ⟨hz, hno, hvs⟩ := runCalls_zero_ret cs pf vs hrun
  subst hz
  refine ⟨run_state_allowed_nil, ?_, rfl, hno, hvs, fun _ => rfl, fun _ => rfl, fun _ => rfl,
    fun _ _ => rfl⟩
  intro l
  cases l <;> rfl

/-- C14 at the filter `New()` returns, after `Unallow("QmA")`, `IsAllowed("QmA")` and
`handleCanHop` for a stream from `"QmA"`. -/
theorem map_stays_nil_witness :
    New ([] : List String) = .ret PeerFilter.zero () ∧
    runCalls (PeerFilter.zero : PeerFilter String)
        [.Unallow "QmA", .IsAllowed "QmA", .handleCanHop ⟨⟨"QmA"⟩⟩]
      = .ret PeerFilter.zero [none, some false, some false] ∧
    (PeerFilter.zero : PeerFilter String).allowed = .nil ∧
    Allow (PeerFilter.zero : PeerFilter String) "QmB"
      = .panicked { allowed := .nil, mx := { writer := true, readers := 0 } } .nilMapAssign :=
  have h := map_stays_nil ([] : List String) PeerFilter.zero PeerFilter.zero
    [.Unallow "QmA", .IsAllowed "QmA", .handleCanHop ⟨⟨"QmA"⟩⟩] [none, some false, some false]
    (Or.inl rfl) (by decide)
  ⟨rfl, by decide, h.2.2.1, h.2.2.2.2.2.1 "QmB"⟩

/-! ## Lock balance -/

/-- C15, evaluated at the failing input `New()` then `Allow("QmA")`: the mutex is free when
the call starts; `Lock` takes it, the map write panics on the nil map, and `Unlock`, a plain
statement after the write, is never reached: the call ends with the write lock held, not
free. On the same filter `Unallow("QmA")` and `IsAllowed("QmA")` start and end with the
mutex free, and all three calls do take the mutex: they wait when it is not available. -/
theorem Allow_leaves_lock_held_on_nil_map :
    New ([] : List String) = .ret PeerFilter.zero () ∧
    (PeerFilter.zero : PeerFilter String).mx = RWMutex.zero ∧
    Allow (PeerFilter.zero : PeerFilter String) "QmA"
      = .panicked { allowed := .nil, mx := { writer := true, readers := 0 } } .nilMapAssign ∧
    (Allow (PeerFilter.zero : PeerFilter String) "QmA").state.mx
      = { writer := true, readers := 0 } ∧
    (Allow (PeerFilter.zero : PeerFilter String) "QmA").state.mx ≠ RWMutex.zero ∧
    Unallow (PeerFilter.zero : PeerFilter String) "QmA" = .ret PeerFilter.zero () ∧
    IsAllowed (PeerFilter.zero : PeerFilter String) "QmA" = .ret PeerFilter.zero false ∧
    Allow ({ allowed := .nil, mx := { writer := false, readers := 1 } } : PeerFilter String)
      "QmA" = .blocked { allowed := .nil, mx := { writer := false, readers := 1 } } ∧
    Unallow ({ allowed := .nil, mx := { writer := false, readers := 1 } } : PeerFilter String)
      "QmA" = .blocked { allowed := .nil, mx := { writer := false, readers := 1 } } ∧
    IsAllowed (Allow (PeerFilter.zero : PeerFilter String) "QmA").state "QmA"
      = .blocked (Allow (PeerFilter.zero : PeerFilter String) "QmA").state := by
  decide

/-- A call of `Allow`, `Unallow` or `IsAllowed` that starts with the mutex free and returns
normally ends with the mutex free, having done exactly one insert, delete or lookup on the
map. `Unallow` and `IsAllowed` return normally from every such state, and `Allow` from every
such state whose map is not nil. -/
theorem lock_balance_on_return (pf : PeerFilter P) (p : P) (hfree : pf.mx = RWMutex.zero) :
    Unallow pf p = .ret { allowed := pf.allowed.delete p, mx := RWMutex.zero } () ∧
    IsAllowed pf p = .ret { allowed := pf.allowed, mx := RWMutex.zero } (pf.allowed.lookup p) ∧
    (∀ keys : Finset P, pf.allowed = .mk keys →
      Allow pf p = .ret { allowed := .mk (insert p keys), mx := RWMutex.zero } ()) ∧
    (∀ pf1 : PeerFilter P, Allow pf p = .ret pf1 () →
      pf1.mx = RWMutex.zero ∧ pf.allowed.assign p = some pf1.allowed) := by
  obtain ⟨m, l⟩ := pf
  simp only at hfree
  subst hfree
  refine ⟨rfl, rfl, ?_, ?_⟩
  · intro keys hk
    simp only at hk
    subst hk
    rfl
  · intro pf1 h
    cases m with
    | nil => rw [Allow_nilMap _ p rfl rfl] at h; cases h
    | mk keys =>
      rw [Allow_mk] at h
      cases h
      exact ⟨rfl, rfl⟩

/-- Lock balance at a filter whose map holds `"QmB"` and whose mutex is free, for
`Allow("QmA")`. -/
theorem lock_balance_on_return_witness :
    ({ allowed := .mk {"QmB"}, mx := RWMutex.zero } : PeerFilter String).mx = RWMutex.zero ∧
    Allow ({ allowed := .mk {"QmB"}, mx := RWMutex.zero } : PeerFilter String) "QmA"
      = .ret { allowed := .mk (insert "QmA" {"QmB"}), mx := RWMutex.zero } () :=
  ⟨rfl, (lock_balance_on_return
    ({ allowed := .mk {"QmB"}, mx := RWMutex.zero } : PeerFilter String) "QmA" rfl).2.2.1
    {"QmB"} rfl⟩

end PeerFilterModel
